import Mathlib

/-!
Verification of the LLM Council orchestration core (backend/council.py and
backend/main.py): the ranking parser, the rank aggregator, the anonymizing
label registry, the three-stage pipeline and its streaming companion.

Python strings are modelled as lists of characters, Python floats as exact
rationals (`round(x, 2)` becomes round-half-to-even on rationals), Python
dicts as insertion-ordered association lists, and the network invocations
(`query_model` / `query_models_parallel`) as explicit per-model result
parameters: a model's entry is `some content` on success and `none` on the
failure that the client catches and logs.
-/

namespace Council

open scoped List

/-- Python strings, modelled as lists of characters. -/
abbrev Str := List Char

/-- The ASCII part of the whitespace class matched by the regex escape in the
numbered-line pattern and by str.strip with no argument. -/
def isPySpace (c : Char) : Bool :=
  c = ' ' || c = '\t' || c = '\n' || c = '\r' || c = '\x0b' || c = '\x0c'

/-- The character class of the single uppercase letter in the two ranking
patterns of parse_ranking_from_text. -/
def isUpperAZ (c : Char) : Bool := 'A' ≤ c && c ≤ 'Z'

/-- The ten-character token "Response <c>". -/
def labelOf (c : Char) : Str :=
  'R' :: 'e' :: 's' :: 'p' :: 'o' :: 'n' :: 's' :: 'e' :: ' ' :: [c]

/-- The fourteen characters of the literal marker "FINAL RANKING:" split on
by parse_ranking_from_text. -/
def markerS : Str :=
  'F' :: 'I' :: 'N' :: 'A' :: 'L' :: ' ' :: 'R' :: 'A' :: 'N' :: 'K' :: 'I' :: 'N' :: 'G' :: [':']

/-- Try to match the pattern `Response [A-Z]` at the very start of `s`,
returning the matched letter and the remainder of the string. -/
def matchLabel (s : Str) : Option (Char × Str) :=
  if 10 ≤ s.length ∧
      s.take 9 = 'R' :: 'e' :: 's' :: 'p' :: 'o' :: 'n' :: 's' :: 'e' :: [' '] ∧
      isUpperAZ (s.getD 9 'A') then
    some (s.getD 9 'A', s.drop 10)
  else none

/-- Try to match the numbered-line pattern (one or more digits, a period,
optional whitespace, then `Response [A-Z]`) at the very start of `s`.  The
greedy digit and whitespace runs are deterministic here because a digit can
never start the mandatory period and whitespace can never start `Response`. -/
def matchNumbered (s : Str) : Option (Char × Str) :=
  if (s.takeWhile Char.isDigit).isEmpty then none
  else
    match s.dropWhile Char.isDigit with
    | '.' :: r2 => matchLabel (r2.dropWhile isPySpace)
    | _ => none

/-- re.findall-style scan: non-overlapping matches, leftmost first; after a
match the scan resumes at the first unconsumed character.  `fuel` bounds the
recursion and is always instantiated with the length of the string. -/
def scanAll (step : Str → Option (Char × Str)) : Nat → Str → List Str
  | 0, _ => []
  | _ + 1, [] => []
  | fuel + 1, c :: rest =>
    match step (c :: rest) with
    | some (l, after) => labelOf l :: scanAll step fuel after
    | none => scanAll step fuel rest

/-- All matches of the numbered-line pattern, each reduced (as the source does
with a nested re.search) to its trailing `Response <letter>` token. -/
def findNumbered (s : Str) : List Str := scanAll matchNumbered s.length s

/-- All matches of the bare pattern `Response [A-Z]`, in order, without
deduplication. -/
def findLabels (s : Str) : List Str := scanAll matchLabel s.length s

/-- Split at the first occurrence of `pat`, returning the part before it and
the part after it; `none` when `pat` does not occur.  `text.split(pat)[1]` in
the source is recovered by splitting the after-part once more. -/
def splitOnce (pat : Str) : Str → Option (Str × Str)
  | [] => none
  | c :: rest =>
    if pat.isPrefixOf (c :: rest) then some ([], (c :: rest).drop pat.length)
    else
      match splitOnce pat rest with
      | some (before, after) => some (c :: before, after)
      | none => none

/-- The Python substring test `pat in s`. -/
def containsSub (pat : Str) : Str → Bool
  | [] => pat.isEmpty
  | c :: rest => pat.isPrefixOf (c :: rest) || containsSub pat rest

/-- Decidable form of "`s` contains a `Response [A-Z]` token somewhere". -/
def containsLabelTok : Str → Bool
  | [] => false
  | c :: rest => (matchLabel (c :: rest)).isSome || containsLabelTok rest

/-- parse_ranking_from_text from backend/council.py: locate the marker; in
the section between the first marker and the next one (or the end), first
collect numbered-line matches, falling back to bare label tokens; with no
marker, collect bare label tokens from the whole text. -/
def parse_ranking_from_text (ranking_text : Str) : List Str :=
  match splitOnce markerS ranking_text with
  | some (_, afterMarker) =>
    let sect :=
      match splitOnce markerS afterMarker with
      | some (before, _) => before
      | none => afterMarker
    let numbered := findNumbered sect
    if numbered.isEmpty then findLabels sect else numbered
  | none => findLabels ranking_text

/-! ## Rank aggregation (calculate_aggregate_rankings) -/

/-- One element of the list returned by calculate_aggregate_rankings.  The
float average is modelled as an exact rational. -/
structure AggregateEntry where
  model : String
  average_rank : ℚ
  rankings_count : Nat
deriving DecidableEq, Repr

/-- Round the rational a / b (with b > 0) to the nearest integer, ties to
even, matching Python's round: `f` is the floor of a / b and `r2 < b`
(resp. `b < r2`) says the fractional part a / b - f is below (resp. above)
one half. -/
def roundHalfEvenInt (a b : ℤ) : ℤ :=
  let f := a.fdiv b
  let r2 := 2 * (a - f * b)
  if r2 < b then f
  else if b < r2 then f + 1
  else if f % 2 = 0 then f else f + 1

/-- Python round(x, 2) on exact rationals: scale the reduced fraction
num / den by 100, round half to even, and scale back. -/
def round2 (q : ℚ) : ℚ := Rat.divInt (roundHalfEvenInt (q.num * 100) (q.den : ℤ)) 100

/-- The defaultdict(list) update `model_positions[model_name].append(position)`:
append to the entry of `key`, creating it at the back on first use (dicts are
insertion-ordered). -/
def addPos : List (String × List Nat) → String → Nat → List (String × List Nat)
  | [], key, pos => [(key, [pos])]
  | (k, ps) :: rest, key, pos =>
    if k = key then (k, ps ++ [pos]) :: rest else (k, ps) :: addPos rest key pos

/-- Dict lookup in the label→model registry (`label in label_to_model` plus
indexing); association-list keys are unique in every run the source builds. -/
def lookupLabel (reg : List (Str × String)) (label : Str) : Option String :=
  match reg with
  | [] => none
  | (k, v) :: rest => if k = label then some v else lookupLabel rest label

/-- One judge's contribution to model_positions: walk
`enumerate(parsed_ranking, start=1)` and record each registry label's 1-based
position against its model. -/
def recordJudge (reg : List (Str × String)) (m : List (String × List Nat))
    (parsed : List Str) : List (String × List Nat) :=
  parsed.enum.foldl
    (fun m p =>
      match lookupLabel reg p.2 with
      | some name => addPos m name (p.1 + 1)
      | none => m)
    m

/-- A stage-2 record: judge model, raw ranking text, and the parsed labels
stored alongside (the aggregator re-parses the raw text rather than reading
the stored field, exactly as the source does). -/
structure Stage2Item where
  model : String
  ranking : Str
  parsed_ranking : List Str
deriving DecidableEq, Repr

/-- Insert into a list sorted by average_rank, after all entries whose key is
less than or equal: combined with a left fold this is a stable sort, matching
Python's list.sort(key=...). -/
def insertByAvg (x : AggregateEntry) : List AggregateEntry → List AggregateEntry
  | [] => [x]
  | y :: ys =>
    if x.average_rank < y.average_rank then x :: y :: ys else y :: insertByAvg x ys

/-- Stable ascending sort on average_rank. -/
def sortByAvg (l : List AggregateEntry) : List AggregateEntry :=
  l.foldl (fun acc x => insertByAvg x acc) []

/-- calculate_aggregate_rankings from backend/council.py. -/
def calculate_aggregate_rankings (stage2_results : List Stage2Item)
    (label_to_model : List (Str × String)) : List AggregateEntry :=
  let model_positions := stage2_results.foldl
    (fun m item => recordJudge label_to_model m (parse_ranking_from_text item.ranking)) []
  let aggregate := model_positions.filterMap
    (fun e =>
      if e.2.isEmpty then none
      else some ⟨e.1, round2 (Rat.divInt (e.2.sum : ℤ) (e.2.length : ℤ)), e.2.length⟩)
  sortByAvg aggregate

/-! ## Stage functions and the pipeline (run_full_council) -/

/-- A stage-1 record: the answering model and its response text. -/
structure Stage1Item where
  model : String
  response : Str
deriving DecidableEq, Repr

/-- The stage-3 record: synthesizer model and final text. -/
structure Stage3Result where
  model : String
  response : Str
deriving DecidableEq, Repr

/-- The dict returned by query_models_parallel, insertion-ordered: each
queried model paired with `some content` on success or `none` on the failure
swallowed by the client. -/
abbrev InvokerResults := List (String × Option Str)

/-- CHAIRMAN_MODEL from backend/config.py. -/
def CHAIRMAN_MODEL : String := "llama-3.3-70b-versatile"

/-- stage1_collect_responses, given the fan-out results: keep the successful
responses, in dict order, dropping failed models. -/
def stage1_collect_responses (responses : InvokerResults) : List Stage1Item :=
  responses.filterMap
    (fun r =>
      match r.2 with
      | some content => some ⟨r.1, content⟩
      | none => none)

/-- The anonymizing label characters chr(65 + i), one per stage-1 result. -/
def stage2Labels (n : Nat) : List Char := (List.range n).map (fun i => Char.ofNat (65 + i))

/-- stage2_collect_rankings, given the stage-1 results and the judge fan-out
results: build the label→model registry from the labels A, B, C, … zipped
with the stage-1 results, and parse each successful judge response. -/
def stage2_collect_rankings (stage1_results : List Stage1Item)
    (responses : InvokerResults) : List Stage2Item × List (Str × String) :=
  let labels := stage2Labels stage1_results.length
  let label_to_model := (labels.zip stage1_results).map (fun p => (labelOf p.1, p.2.model))
  let stage2_results := responses.filterMap
    (fun r =>
      match r.2 with
      | some full_text => some ⟨r.1, full_text, parse_ranking_from_text full_text⟩
      | none => none)
  (stage2_results, label_to_model)

/-- stage3_synthesize_final, given the single chairman invocation's result:
on failure substitute the fixed error sentinel. -/
def stage3_synthesize_final (response : Option Str) : Stage3Result :=
  match response with
  | none => ⟨CHAIRMAN_MODEL, "Error: Unable to generate final synthesis.".toList⟩
  | some content => ⟨CHAIRMAN_MODEL, content⟩

/-- The metadata dict of a completed run. -/
structure CouncilMetadata where
  label_to_model : List (Str × String)
  aggregate_rankings : List AggregateEntry
  had_context : Bool
deriving DecidableEq, Repr

/-- The 4-tuple returned by run_full_council; `metadata = none` models the
empty dict returned on the error path. -/
structure CouncilOutcome where
  stage1 : List Stage1Item
  stage2 : List Stage2Item
  stage3 : Stage3Result
  metadata : Option CouncilMetadata
deriving DecidableEq, Repr

/-- run_full_council from backend/council.py, with the three network
fan-outs abstracted into explicit result parameters. -/
def run_full_council (stage1Responses judgeResponses : InvokerResults)
    (chairmanResponse : Option Str) (hadContext : Bool) : CouncilOutcome :=
  let stage1_results := stage1_collect_responses stage1Responses
  if stage1_results.isEmpty then
    ⟨[], [], ⟨"error", "All models failed to respond. Please try again.".toList⟩, none⟩
  else
    let s2 := stage2_collect_rankings stage1_results judgeResponses
    let aggregate_rankings := calculate_aggregate_rankings s2.1 s2.2
    let stage3_result := stage3_synthesize_final chairmanResponse
    ⟨stage1_results, s2.1, stage3_result, some ⟨s2.2, aggregate_rankings, hadContext⟩⟩

/-! ## Streaming mode (event_generator in backend/main.py) -/

/-- The progress events emitted on the happy path of the stream. -/
inductive StreamEvent where
  | stage1Start
  | stage1Complete (data : List Stage1Item)
  | stage2Start
  | stage2Complete (data : List Stage2Item) (label_to_model : List (Str × String))
      (aggregate_rankings : List AggregateEntry)
  | stage3Start
  | stage3Complete (data : Stage3Result)
  | titleComplete (title : Str)
  | complete
deriving DecidableEq, Repr

/-- event_generator from backend/main.py, with the same network abstraction
as run_full_council: the sequence of events emitted when no exception
escapes.  Note the generator runs stage 2 and stage 3 unconditionally: it has
no counterpart of run_full_council's empty-stage-1 short circuit. -/
def event_generator (stage1Responses judgeResponses : InvokerResults)
    (chairmanResponse : Option Str) (title : Option Str) : List StreamEvent :=
  let stage1_results := stage1_collect_responses stage1Responses
  let s2 := stage2_collect_rankings stage1_results judgeResponses
  let aggregate_rankings := calculate_aggregate_rankings s2.1 s2.2
  let stage3_result := stage3_synthesize_final chairmanResponse
  [StreamEvent.stage1Start, StreamEvent.stage1Complete stage1_results,
   StreamEvent.stage2Start, StreamEvent.stage2Complete s2.1 s2.2 aggregate_rankings,
   StreamEvent.stage3Start, StreamEvent.stage3Complete stage3_result]
  ++ (match title with | some t => [StreamEvent.titleComplete t] | none => [])
  ++ [StreamEvent.complete]

/-! ## Title generation (generate_conversation_title) -/

/-- str.strip-style removal of leading and trailing characters satisfying
`p`. -/
def stripWhere (p : Char → Bool) (s : Str) : Str :=
  ((s.dropWhile p).reverse.dropWhile p).reverse

/-- The quote characters stripped by `title.strip('"\'')`. -/
def isQuote (c : Char) : Bool := c = '"' || c = '\''

/-- Python str.split() with no argument: split on whitespace runs, dropping
empty pieces. -/
def pySplitWs (s : Str) : List Str := (s.splitOnP isPySpace).filter (fun w => !w.isEmpty)

/-- generate_conversation_title from backend/council.py, given the title
model invocation's result. -/
def generate_conversation_title (user_query : Str) (response : Option Str) : Str :=
  match response with
  | none =>
    let words := (pySplitWs user_query).take 4
    (List.intercalate [' '] words) ++ "...".toList
  | some content =>
    let title := stripWhere isQuote (stripWhere isPySpace content)
    let title := if 50 < title.length then title.take 47 ++ "...".toList else title
    if title.isEmpty then "New Conversation".toList else title

/-! ## Derived views used by the theorem statements -/

/-- The positions one judge's parsed ranking records against `model`:
1-based indices of the occurrences of labels that the registry maps to
`model`. -/
def judgePositions (reg : List (Str × String)) (model : String) (parsed : List Str) :
    List Nat :=
  parsed.enum.filterMap
    (fun p => if lookupLabel reg p.2 = some model then some (p.1 + 1) else none)

/-- All positions recorded against `model` across the stage-2 results, in
processing order. -/
def positionsOf (stage2_results : List Stage2Item) (reg : List (Str × String))
    (model : String) : List Nat :=
  (stage2_results.map
    (fun item => judgePositions reg model (parse_ranking_from_text item.ranking))).flatten

/-- Association-list lookup into the accumulated model_positions map, with
the defaultdict's empty default. -/
def lookupPos (m : List (String × List Nat)) (key : String) : List Nat :=
  match m with
  | [] => []
  | (k, ps) :: rest => if k = key then ps else lookupPos rest key

/-- The aggregate entry a model ends up with, phrased through its recorded
positions. -/
def entryFor (stage2_results : List Stage2Item) (reg : List (Str × String))
    (key : String) : AggregateEntry :=
  ⟨key,
   round2 (Rat.divInt ((positionsOf stage2_results reg key).sum : ℤ)
     ((positionsOf stage2_results reg key).length : ℤ)),
   (positionsOf stage2_results reg key).length⟩

/-- A well-formed numbered ranking line, rendered: a newline, the digits of
the rank number, a period, one space, and the `Response <letter>` token. -/
def renderItem (p : Str × Char) : Str := '\n' :: (p.1 ++ '.' :: ' ' :: labelOf p.2)

/-- A block of well-formed numbered ranking lines. -/
def renderItems (items : List (Str × Char)) : Str := (items.map renderItem).flatten

/-- Scan for the two-character sequence 'F' then 'I'; every occurrence of the
marker contains one, so a string without it cannot contain the marker. -/
def startsWithI : Str → Bool
  | 'I' :: _ => true
  | _ => false

def hasFI : Str → Bool
  | [] => false
  | c :: rest => (c = 'F' && startsWithI rest) || hasFI rest

/-! ## Concrete scenario of the spec's aggregate-ranking example -/

/-- Three stage-1 answers, labelled A, B, C in that order. -/
def scenarioStage1 : List Stage1Item :=
  [⟨"model-a", []⟩, ⟨"model-b", []⟩, ⟨"model-c", []⟩]

/-- The registry the anonymizer builds for the scenario. -/
def scenarioRegistry : List (Str × String) := (stage2_collect_rankings scenarioStage1 []).2

/-- First judge: a marked ranking C, A, B. -/
def scenarioJudge1 : Str :=
  ("FINAL RANKING:\n1. Response C\n2. Response A\n3. Response B").toList

/-- Second judge: marker-free free text mentioning only Response A then
Response C. -/
def scenarioJudge2 : Str :=
  ("I liked Response A a lot, though Response C was close.").toList

/-- The aggregate rankings the code computes for the scenario. -/
def scenarioAggregate : List AggregateEntry :=
  calculate_aggregate_rankings
    [⟨"judge-1", scenarioJudge1, []⟩, ⟨"judge-2", scenarioJudge2, []⟩]
    scenarioRegistry

/-! ## Sanity checks of the embedding on concrete inputs -/

example : markerS = "FINAL RANKING:".toList := by decide

example :
    parse_ranking_from_text
      ("blah Response B blah FINAL RANKING:\n1. Response C\n2. Response A\n3. Response B").toList
      = [labelOf 'C', labelOf 'A', labelOf 'B'] := by decide

example :
    parse_ranking_from_text ("I prefer Response A over Response C").toList
      = [labelOf 'A', labelOf 'C'] := by decide

example :
    parse_ranking_from_text ("FINAL RANKING: i like Response B most").toList
      = [labelOf 'B'] := by decide

example : parse_ranking_from_text ("no ranking here").toList = [] := by decide

example : round2 (Rat.divInt 3 2) = Rat.divInt 3 2 := by decide

example : round2 (Rat.divInt 4 3) = Rat.divInt 133 100 := by decide

example : round2 (Rat.divInt 1 8) = Rat.divInt 12 100 := by decide

example :
    generate_conversation_title "Explain quantum tunneling in simple terms".toList none
      = "Explain quantum tunneling in...".toList := by decide

example :
    generate_conversation_title [] (some "  \"A Nice Title\"  ".toList)
      = "A Nice Title".toList := by decide

example :
    generate_conversation_title [] (some "''".toList)
      = "New Conversation".toList := by decide

example :
    scenarioRegistry =
      [(labelOf 'A', "model-a"), (labelOf 'B', "model-b"), (labelOf 'C', "model-c")] := by
  decide

/-! ## String-scanning lemmas -/

theorem length_dropWhile_le (p : Char → Bool) (l : Str) :
    (l.dropWhile p).length ≤ l.length := by
  induction l with
  | nil => simp
  | cons a t ih =>
    rw [List.dropWhile_cons]
    split
    · exact Nat.le_succ_of_le ih
    · simp

theorem containsSub_iff (pat s : Str) :
    containsSub pat s = true ↔ ∃ a b, s = a ++ pat ++ b := by
  induction s with
  | nil =>
    rw [show containsSub pat [] = pat.isEmpty from rfl, List.isEmpty_iff]
    constructor
    · intro h
      subst h
      exact ⟨[], [], rfl⟩
    · rintro ⟨a, b, hab⟩
      obtain ⟨hap, hb⟩ := List.append_eq_nil.mp hab.symm
      exact (List.append_eq_nil.mp hap).2
  | cons c rest ih =>
    rw [show containsSub pat (c :: rest) =
          (pat.isPrefixOf (c :: rest) || containsSub pat rest) from rfl,
      Bool.or_eq_true, ih, List.isPrefixOf_iff_prefix]
    constructor
    · rintro (⟨t, ht⟩ | ⟨a, b, hab⟩)
      · exact ⟨[], t, by simp [← ht]⟩
      · exact ⟨c :: a, b, by simp [hab]⟩
    · rintro ⟨a, b, hab⟩
      cases a with
      | nil =>
        left
        exact ⟨b, by simpa using hab.symm⟩
      | cons a0 a1 =>
        right
        simp only [List.cons_append, List.cons.injEq] at hab
        exact ⟨a1, b, hab.2⟩

theorem not_decomp_of_not_contains {pat s : Str} (h : containsSub pat s = false) :
    ∀ a b, s ≠ a ++ pat ++ b := by
  intro a b heq
  have htrue : containsSub pat s = true := (containsSub_iff pat s).mpr ⟨a, b, heq⟩
  rw [h] at htrue
  cases htrue

theorem containsSub_tail {pat : Str} {c : Char} {rest : Str}
    (h : containsSub pat (c :: rest) = false) : containsSub pat rest = false := by
  have hor : (pat.isPrefixOf (c :: rest) || containsSub pat rest) = false := h
  exact (Bool.or_eq_false_iff.mp hor).2

theorem splitOnce_eq_none_of_not_contains {pat s : Str}
    (h : containsSub pat s = false) : splitOnce pat s = none := by
  induction s with
  | nil => rfl
  | cons c rest ih =>
    have hor : (pat.isPrefixOf (c :: rest) || containsSub pat rest) = false := h
    obtain ⟨h1, h2⟩ := Bool.or_eq_false_iff.mp hor
    simp [splitOnce, h1, ih h2]

/-- Unfolding equation for splitOnce on a cons cell. -/
theorem splitOnce_cons (pat : Str) (c : Char) (t : Str) :
    splitOnce pat (c :: t) =
      if pat.isPrefixOf (c :: t) then some ([], (c :: t).drop pat.length)
      else
        match splitOnce pat t with
        | some (before, after) => some (c :: before, after)
        | none => none := rfl

/-- The marker has no border: no nonempty proper suffix of it is also a
prefix of it.  This is what rules out occurrences of the marker straddling
the boundary of a text that ends with the marker. -/
theorem markerS_no_border :
    ∀ k < 14, k ≠ 0 → markerS.drop k ≠ markerS.take (14 - k) := by decide

/-- Splitting a text of the shape `pre ++ marker ++ rest`, where `pre` does
not contain the marker, cuts exactly at the first marker. -/
theorem splitOnce_append (pre rest : Str) (hpre : containsSub markerS pre = false) :
    splitOnce markerS (pre ++ (markerS ++ rest)) = some (pre, rest) := by
  induction pre with
  | nil =>
    have h1 : markerS.isPrefixOf
        ('F' :: ('I' :: 'N' :: 'A' :: 'L' :: ' ' :: 'R' :: 'A' :: 'N' :: 'K' :: 'I' :: 'N' ::
          'G' :: [':'] ++ rest)) = true :=
      List.isPrefixOf_iff_prefix.mpr ⟨rest, rfl⟩
    show splitOnce markerS
        ('F' :: ('I' :: 'N' :: 'A' :: 'L' :: ' ' :: 'R' :: 'A' :: 'N' :: 'K' :: 'I' :: 'N' ::
          'G' :: [':'] ++ rest)) = some ([], rest)
    rw [splitOnce_cons, if_pos h1]
    rfl
  | cons c pre ih =>
    have key : ¬ markerS <+: (c :: pre) ++ (markerS ++ rest) := by
      intro hpf
      rcases Nat.lt_or_ge (c :: pre).length markerS.length with hlt | hge
      · obtain ⟨t, ht⟩ := hpf
        have h1 : markerS = (markerS ++ t).take markerS.length := by
          rw [List.take_append_eq_append_take, List.take_of_length_le (Nat.le_refl _),
            Nat.sub_self, List.take_zero, List.append_nil]
        rw [ht, List.take_append_eq_append_take,
          List.take_of_length_le (Nat.le_of_lt hlt)] at h1
        have h2 : (markerS ++ rest).take (markerS.length - (c :: pre).length) =
            markerS.take (markerS.length - (c :: pre).length) := by
          rw [List.take_append_eq_append_take,
            Nat.sub_eq_zero_of_le (Nat.sub_le _ _), List.take_zero, List.append_nil]
        rw [h2] at h1
        have h3 : markerS.drop (c :: pre).length =
            markerS.take (markerS.length - (c :: pre).length) := by
          conv_lhs => rw [h1]
          rw [List.drop_left]
        exact markerS_no_border (c :: pre).length hlt (by simp) h3
      · have hpf2 : markerS <+: (c :: pre) :=
          List.prefix_of_prefix_length_le hpf (List.prefix_append _ _) hge
        obtain ⟨t2, ht2⟩ := hpf2
        have htrue : containsSub markerS (c :: pre) = true :=
          (containsSub_iff _ _).mpr ⟨[], t2, by simp [← ht2]⟩
        rw [hpre] at htrue
        cases htrue
    have hnp : markerS.isPrefixOf (c :: (pre ++ (markerS ++ rest))) = false := by
      cases hb : markerS.isPrefixOf (c :: (pre ++ (markerS ++ rest)))
      · rfl
      · exact absurd (List.isPrefixOf_iff_prefix.mp hb) key
    show splitOnce markerS (c :: (pre ++ (markerS ++ rest))) = some (c :: pre, rest)
    rw [splitOnce_cons, if_neg (by rw [hnp]; exact Bool.false_ne_true),
      ih (containsSub_tail hpre)]

theorem matchLabel_eq_some_iff {s : Str} {c : Char} {r : Str} :
    matchLabel s = some (c, r) ↔ s = labelOf c ++ r ∧ isUpperAZ c = true := by
  constructor
  · intro h
    unfold matchLabel at h
    split at h
    · rename_i hc
      obtain ⟨hlen, htake, hup⟩ := hc
      obtain ⟨hc1, hr1⟩ : s.getD 9 'A' = c ∧ s.drop 10 = r := by
        simpa using h
      subst hc1
      subst hr1
      refine ⟨?_, hup⟩
      have h9 : 9 < s.length := by omega
      have hsplit : s = s.take 9 ++ s.drop 9 := (List.take_append_drop 9 s).symm
      rw [List.drop_eq_getElem_cons h9, ← List.getD_eq_getElem s 'A' h9, htake] at hsplit
      simpa [labelOf] using hsplit
    · exact absurd h (by simp)
  · rintro ⟨rfl, hup⟩
    unfold matchLabel
    rw [if_pos]
    · simp [labelOf]
    · refine ⟨by simp [labelOf], by simp [labelOf], ?_⟩
      simpa [labelOf] using hup

theorem matchLabel_length {s : Str} {c : Char} {r : Str}
    (h : matchLabel s = some (c, r)) : r.length + 10 = s.length := by
  rw [(matchLabel_eq_some_iff.mp h).1]
  simp [labelOf]

theorem matchNumbered_length {s : Str} {c : Char} {r : Str}
    (h : matchNumbered s = some (c, r)) : r.length < s.length := by
  unfold matchNumbered at h
  split at h
  · exact absurd h (by simp)
  · rename_i hne
    split at h
    · rename_i r2 heq
      have h1 := matchLabel_length h
      have h2 : (r2.dropWhile isPySpace).length ≤ r2.length := length_dropWhile_le _ _
      have h3 : ('.' :: r2).length ≤ s.length := by
        rw [← heq]
        exact length_dropWhile_le _ _
      simp at h3
      omega
    · exact absurd h (by simp)

theorem takeWhile_dropWhile_append {p : Char → Bool} {d : Str}
    (hall : ∀ x ∈ d, p x = true) {y : Char} (hy : p y = false) (t : Str) :
    (d ++ y :: t).takeWhile p = d ∧ (d ++ y :: t).dropWhile p = y :: t := by
  induction d with
  | nil => simp [List.takeWhile_cons, List.dropWhile_cons, hy]
  | cons a d ih =>
    have ha : p a = true := hall a (by simp)
    obtain ⟨ih1, ih2⟩ := ih (fun x hx => hall x (by simp [hx]))
    simp [List.takeWhile_cons, List.dropWhile_cons, ha, ih1, ih2]

/-- The numbered-line matcher accepts exactly a rendered well-formed line
head: digits, period, single space, label token. -/
theorem matchNumbered_render {d : Str} (hdne : d ≠ [])
    (hdig : ∀ ch ∈ d, ch.isDigit = true) {c : Char} (hup : isUpperAZ c = true)
    (rest : Str) :
    matchNumbered (d ++ '.' :: ' ' :: (labelOf c ++ rest)) = some (c, rest) := by
  obtain ⟨htw, hdw⟩ :=
    @takeWhile_dropWhile_append Char.isDigit d hdig '.' (by decide)
      (' ' :: (labelOf c ++ rest))
  unfold matchNumbered
  rw [htw, if_neg (by simp [List.isEmpty_iff, hdne]), hdw]
  show matchLabel ((' ' :: (labelOf c ++ rest)).dropWhile isPySpace) = some (c, rest)
  rw [List.dropWhile_cons, if_pos (by decide),
    show labelOf c ++ rest =
      'R' :: ('e' :: 's' :: 'p' :: 'o' :: 'n' :: 's' :: 'e' :: ' ' :: [c] ++ rest) from rfl,
    List.dropWhile_cons, if_neg (by decide)]
  exact matchLabel_eq_some_iff.mpr ⟨rfl, hup⟩

theorem scanAll_congr (step : Str → Option (Char × Str))
    (hstep : ∀ s c r, step s = some (c, r) → r.length < s.length) :
    ∀ (f1 f2 : Nat) (s : Str), s.length ≤ f1 → s.length ≤ f2 →
      scanAll step f1 s = scanAll step f2 s := by
  intro f1
  induction f1 with
  | zero =>
    intro f2 s h1 h2
    have hs : s = [] := List.length_eq_zero.mp (Nat.le_zero.mp h1)
    subst hs
    cases f2 <;> rfl
  | succ f ih =>
    intro f2 s h1 h2
    cases s with
    | nil => cases f2 <;> rfl
    | cons a t =>
      cases f2 with
      | zero => simp at h2
      | succ g =>
        cases hstep2 : step (a :: t) with
        | none =>
          simp only [scanAll, hstep2]
          exact ih g t (by simpa using h1) (by simpa using h2)
        | some pr =>
          obtain ⟨l, after⟩ := pr
          have hlt := hstep _ _ _ hstep2
          simp only [scanAll, hstep2]
          rw [ih g after (by simp at h1 hlt ⊢; omega) (by simp at h2 hlt ⊢; omega)]

theorem scanAll_nil_of_no_match (step : Str → Option (Char × Str)) :
    ∀ (fuel : Nat) (s : Str), (∀ i, step (s.drop i) = none) →
      scanAll step fuel s = [] := by
  intro fuel
  induction fuel with
  | zero => intro s _; rfl
  | succ f ih =>
    intro s h
    cases s with
    | nil => rfl
    | cons a t =>
      have h0 : step (a :: t) = none := by simpa using h 0
      simp only [scanAll, h0]
      exact ih t (fun i => by simpa using h (i + 1))

theorem renderItems_cons (d : Str) (c : Char) (tl : List (Str × Char)) :
    renderItems ((d, c) :: tl) =
      '\n' :: (d ++ '.' :: ' ' :: (labelOf c ++ renderItems tl)) := by
  simp [renderItems, renderItem, List.append_assoc]

/-- Scanning a block of rendered well-formed lines extracts exactly its
labels, in order. -/
theorem scanAll_render :
    ∀ (items : List (Str × Char)) (fuel : Nat),
      (∀ p ∈ items, p.1 ≠ [] ∧ (∀ ch ∈ p.1, ch.isDigit = true) ∧ isUpperAZ p.2 = true) →
      (renderItems items).length ≤ fuel →
      scanAll matchNumbered fuel (renderItems items) =
        items.map (fun p => labelOf p.2) := by
  intro items
  induction items with
  | nil =>
    intro fuel _ _
    rw [show renderItems [] = [] from rfl]
    cases fuel <;> rfl
  | cons hd tl ih =>
    obtain ⟨d, c⟩ := hd
    intro fuel hwf hfuel
    obtain ⟨hdne, hdig, hup⟩ := hwf (d, c) (by simp)
    have hwftl : ∀ p ∈ tl, p.1 ≠ [] ∧ (∀ ch ∈ p.1, ch.isDigit = true) ∧
        isUpperAZ p.2 = true := fun p hp => hwf p (by simp [hp])
    rw [renderItems_cons] at hfuel ⊢
    cases fuel with
    | zero => simp at hfuel
    | succ f =>
      have hm0 : matchNumbered
          ('\n' :: (d ++ '.' :: ' ' :: (labelOf c ++ renderItems tl))) = none := by
        unfold matchNumbered
        rw [if_pos]
        rw [List.takeWhile_cons, if_neg (by decide)]
        rfl
      simp only [scanAll, hm0]
      cases d with
      | nil => exact absurd rfl hdne
      | cons d0 dtl =>
        cases f with
        | zero =>
          exfalso
          simp [labelOf] at hfuel
        | succ g =>
          have hmn : matchNumbered
              (d0 :: (dtl ++ '.' :: ' ' :: (labelOf c ++ renderItems tl))) =
              some (c, renderItems tl) :=
            matchNumbered_render hdne hdig hup (renderItems tl)
          simp only [scanAll, List.append_eq, hmn]
          rw [ih g hwftl (by simp [labelOf] at hfuel ⊢; omega)]
          rfl

/-- findNumbered on a block of rendered well-formed lines. -/
theorem findNumbered_render (items : List (Str × Char))
    (hwf : ∀ p ∈ items, p.1 ≠ [] ∧ (∀ ch ∈ p.1, ch.isDigit = true) ∧
      isUpperAZ p.2 = true) :
    findNumbered (renderItems items) = items.map (fun p => labelOf p.2) :=
  scanAll_render items (renderItems items).length hwf (Nat.le_refl _)

/-! ## The marker cannot occur inside a rendered block -/

theorem hasFI_cons_ne (c : Char) (t : Str) (hc : (c = 'F') = False) :
    hasFI (c :: t) = hasFI t := by
  simp [hasFI, hc]

theorem hasFI_cons_any (c : Char) (t : Str) (ht : hasFI t = false)
    (hs : startsWithI t = false) : hasFI (c :: t) = false := by
  simp [hasFI, ht, hs]

theorem hasFI_append_left (a : Str) (t : Str) (ht : hasFI t = true) :
    hasFI (a ++ t) = true := by
  induction a with
  | nil => simpa using ht
  | cons c a ih =>
    show hasFI (c :: (a ++ t)) = true
    simp [hasFI, ih]

theorem hasFI_marker_decomp (a b s : Str) (hs : s = a ++ markerS ++ b) :
    hasFI s = true := by
  subst hs
  rw [List.append_assoc]
  apply hasFI_append_left
  show hasFI ('F' :: ('I' :: 'N' :: 'A' :: 'L' :: ' ' :: 'R' :: 'A' :: 'N' :: 'K' :: 'I' ::
    'N' :: 'G' :: [':'] ++ b)) = true
  simp [hasFI, startsWithI]

theorem hasFI_digit_run (d : Str) (hd : ∀ ch ∈ d, ch.isDigit = true) (t : Str) :
    hasFI (d ++ t) = hasFI t := by
  induction d with
  | nil => rfl
  | cons ch d ih =>
    have hch : ch.isDigit = true := hd ch (by simp)
    have hne : (ch = 'F') = False := by
      simp only [eq_iff_iff, iff_false]
      intro hF
      subst hF
      exact absurd hch (by decide)
    show hasFI (ch :: (d ++ t)) = hasFI t
    rw [hasFI_cons_ne ch _ hne, ih (fun x hx => hd x (by simp [hx]))]

theorem startsWithI_render (tl : List (Str × Char)) :
    startsWithI (renderItems tl) = false := by
  cases tl with
  | nil => rfl
  | cons hd tl =>
    obtain ⟨d, c⟩ := hd
    rw [renderItems_cons]
    rfl

theorem hasFI_render (items : List (Str × Char))
    (hwf : ∀ p ∈ items, p.1 ≠ [] ∧ (∀ ch ∈ p.1, ch.isDigit = true) ∧
      isUpperAZ p.2 = true) :
    hasFI (renderItems items) = false := by
  induction items with
  | nil => rfl
  | cons hd tl ih =>
    obtain ⟨d, c⟩ := hd
    obtain ⟨hdne, hdig, hup⟩ := hwf (d, c) (by simp)
    have hwftl : ∀ p ∈ tl, p.1 ≠ [] ∧ (∀ ch ∈ p.1, ch.isDigit = true) ∧
        isUpperAZ p.2 = true := fun p hp => hwf p (by simp [hp])
    have ihtl := ih hwftl
    rw [renderItems_cons]
    rw [hasFI_cons_ne '\n' _ (by simp), hasFI_digit_run d hdig,
      hasFI_cons_ne '.' _ (by simp), hasFI_cons_ne ' ' _ (by simp),
      show labelOf c ++ renderItems tl =
        'R' :: 'e' :: 's' :: 'p' :: 'o' :: 'n' :: 's' :: 'e' :: ' ' ::
          (c :: renderItems tl) from rfl,
      hasFI_cons_ne 'R' _ (by simp), hasFI_cons_ne 'e' _ (by simp),
      hasFI_cons_ne 's' _ (by simp), hasFI_cons_ne 'p' _ (by simp),
      hasFI_cons_ne 'o' _ (by simp), hasFI_cons_ne 'n' _ (by simp),
      hasFI_cons_ne 's' _ (by simp), hasFI_cons_ne 'e' _ (by simp),
      hasFI_cons_ne ' ' _ (by simp)]
    exact hasFI_cons_any c _ ihtl (startsWithI_render tl)

theorem not_contains_marker_render (items : List (Str × Char))
    (hwf : ∀ p ∈ items, p.1 ≠ [] ∧ (∀ ch ∈ p.1, ch.isDigit = true) ∧
      isUpperAZ p.2 = true) :
    containsSub markerS (renderItems items) = false := by
  cases h : containsSub markerS (renderItems items)
  · rfl
  · obtain ⟨a, b, hab⟩ := (containsSub_iff _ _).mp h
    have := hasFI_marker_decomp a b _ hab
    rw [hasFI_render items hwf] at this
    cases this

/-! ## Suffix-matching helpers for the no-label hypothesis -/

theorem containsLabelTok_no_match {t : Str} (h : containsLabelTok t = false) :
    ∀ i, matchLabel (t.drop i) = none := by
  induction t with
  | nil =>
    intro i
    rw [List.drop_nil]
    decide
  | cons a t ih =>
    intro i
    have hor : ((matchLabel (a :: t)).isSome || containsLabelTok t) = false := h
    obtain ⟨h1, h2⟩ := Bool.or_eq_false_iff.mp hor
    cases i with
    | zero =>
      rw [List.drop_zero]
      cases hml : matchLabel (a :: t) with
      | none => rfl
      | some v =>
        rw [hml] at h1
        cases h1
    | succ j =>
      rw [List.drop_succ_cons]
      exact ih h2 j

theorem no_label_decomp {t : Str} (h : containsLabelTok t = false) :
    ∀ (a : Str) (c : Char) (b : Str), isUpperAZ c = true → t ≠ a ++ labelOf c ++ b := by
  intro a c b hup heq
  have hd : t.drop a.length = labelOf c ++ b := by
    rw [heq, List.append_assoc, List.drop_left]
  have hsome : matchLabel (t.drop a.length) = some (c, b) :=
    matchLabel_eq_some_iff.mpr ⟨hd, hup⟩
  rw [containsLabelTok_no_match h a.length] at hsome
  cases hsome

/-! ## Aggregation lemmas: the model_positions map -/

theorem lookupPos_addPos (m : List (String × List Nat)) (k key : String) (pos : Nat) :
    lookupPos (addPos m k pos) key =
      lookupPos m key ++ (if k = key then [pos] else []) := by
  induction m with
  | nil => by_cases h : k = key <;> simp [addPos, lookupPos, h]
  | cons e rest ih =>
    obtain ⟨k1, ps⟩ := e
    by_cases h1 : k1 = k
    · subst h1
      by_cases h2 : k1 = key
      · subst h2
        simp [addPos, lookupPos]
      · simp [addPos, lookupPos, h2]
    · by_cases h2 : k1 = key
      · subst h2
        simp [addPos, lookupPos, h1, Ne.symm h1]
      · simp [addPos, lookupPos, h1, h2, ih]

theorem lookupPos_recordJudge_aux (reg : List (Str × String)) (key : String) :
    ∀ (pairs : List (Nat × Str)) (m : List (String × List Nat)),
      lookupPos (pairs.foldl
        (fun m p =>
          match lookupLabel reg p.2 with
          | some name => addPos m name (p.1 + 1)
          | none => m) m) key =
      lookupPos m key ++ pairs.filterMap
        (fun p => if lookupLabel reg p.2 = some key then some (p.1 + 1) else none) := by
  intro pairs
  induction pairs with
  | nil => intro m; simp
  | cons p rest ih =>
    intro m
    obtain ⟨i, lab⟩ := p
    cases hl : lookupLabel reg lab with
    | none => simp [hl, ih m]
    | some name =>
      by_cases hk : name = key
      · subst hk
        simp [hl, ih, lookupPos_addPos]
      · simp [hl, ih, lookupPos_addPos, hk]

theorem lookupPos_recordJudge (reg : List (Str × String)) (m : List (String × List Nat))
    (parsed : List Str) (key : String) :
    lookupPos (recordJudge reg m parsed) key =
      lookupPos m key ++ judgePositions reg key parsed :=
  lookupPos_recordJudge_aux reg key parsed.enum m

theorem lookupPos_buildMap (reg : List (Str × String)) (key : String) :
    ∀ (stage2_results : List Stage2Item) (init : List (String × List Nat)),
      lookupPos (stage2_results.foldl
        (fun m item => recordJudge reg m (parse_ranking_from_text item.ranking)) init) key =
      lookupPos init key ++ positionsOf stage2_results reg key := by
  intro stage2_results
  induction stage2_results with
  | nil => intro init; simp [positionsOf, renderItems]
  | cons item rest ih =>
    intro init
    show lookupPos (rest.foldl _
      (recordJudge reg init (parse_ranking_from_text item.ranking))) key = _
    rw [ih, lookupPos_recordJudge]
    simp [positionsOf, List.append_assoc]

theorem addPos_entry_nonempty {m : List (String × List Nat)}
    (hm : ∀ e ∈ m, e.2 ≠ []) (k : String) (pos : Nat) :
    ∀ e ∈ addPos m k pos, e.2 ≠ [] := by
  induction m with
  | nil =>
    intro e he
    simp [addPos] at he
    simp [he]
  | cons e0 rest ih =>
    obtain ⟨k1, ps⟩ := e0
    intro e he
    by_cases h : k1 = k
    · subst h
      simp [addPos] at he
      rcases he with he | he
      · simp [he]
      · exact hm e (by simp [he])
    · simp [addPos, h] at he
      rcases he with he | he
      · exact hm e (by simp [he])
      · exact ih (fun x hx => hm x (by simp [hx])) e he

theorem recordJudge_entry_nonempty (reg : List (Str × String)) (parsed : List Str)
    {m : List (String × List Nat)} (hm : ∀ e ∈ m, e.2 ≠ []) :
    ∀ e ∈ recordJudge reg m parsed, e.2 ≠ [] := by
  suffices h : ∀ (pairs : List (Nat × Str)) (m : List (String × List Nat)),
      (∀ e ∈ m, e.2 ≠ []) →
      ∀ e ∈ pairs.foldl
        (fun m p =>
          match lookupLabel reg p.2 with
          | some name => addPos m name (p.1 + 1)
          | none => m) m, e.2 ≠ [] from h parsed.enum m hm
  intro pairs
  induction pairs with
  | nil => intro m hm e he; exact hm e he
  | cons p rest ih =>
    intro m hm e he
    refine ih _ ?_ e he
    cases hl : lookupLabel reg p.2 with
    | none => simpa [hl] using hm
    | some name =>
      intro x hx
      exact addPos_entry_nonempty hm name (p.1 + 1) x (by simpa [hl] using hx)

theorem buildMap_entry_nonempty (reg : List (Str × String)) :
    ∀ (stage2_results : List Stage2Item) (init : List (String × List Nat)),
      (∀ e ∈ init, e.2 ≠ []) →
      ∀ e ∈ stage2_results.foldl
        (fun m item => recordJudge reg m (parse_ranking_from_text item.ranking)) init,
        e.2 ≠ [] := by
  intro stage2_results
  induction stage2_results with
  | nil => intro init hinit e he; exact hinit e he
  | cons item rest ih =>
    intro init hinit e he
    exact ih _ (recordJudge_entry_nonempty reg _ hinit) e he

theorem mem_keys_addPos {m : List (String × List Nat)} {k key : String} {pos : Nat} :
    key ∈ (addPos m k pos).map Prod.fst ↔ key ∈ m.map Prod.fst ∨ key = k := by
  induction m with
  | nil => simp [addPos]
  | cons e rest ih =>
    obtain ⟨k1, ps⟩ := e
    by_cases h : k1 = k
    · subst h
      simp [addPos]
      tauto
    · simp [addPos, h, ih]
      tauto

theorem nodup_keys_addPos {m : List (String × List Nat)}
    (h : (m.map Prod.fst).Nodup) (k : String) (pos : Nat) :
    ((addPos m k pos).map Prod.fst).Nodup := by
  induction m with
  | nil => simp [addPos]
  | cons e rest ih =>
    obtain ⟨k1, ps⟩ := e
    rw [List.map_cons, List.nodup_cons] at h
    by_cases hk : k1 = k
    · subst hk
      simpa [addPos, List.nodup_cons] using h
    · rw [show addPos ((k1, ps) :: rest) k pos = (k1, ps) :: addPos rest k pos from by
        simp [addPos, hk]]
      rw [List.map_cons, List.nodup_cons]
      refine ⟨?_, ih h.2⟩
      intro hmem
      rcases mem_keys_addPos.mp hmem with hm1 | hm1
      · exact h.1 hm1
      · exact hk hm1

theorem recordJudge_keys_nodup (reg : List (Str × String)) (parsed : List Str)
    {m : List (String × List Nat)} (hm : (m.map Prod.fst).Nodup) :
    ((recordJudge reg m parsed).map Prod.fst).Nodup := by
  suffices h : ∀ (pairs : List (Nat × Str)) (m : List (String × List Nat)),
      (m.map Prod.fst).Nodup →
      ((pairs.foldl
        (fun m p =>
          match lookupLabel reg p.2 with
          | some name => addPos m name (p.1 + 1)
          | none => m) m).map Prod.fst).Nodup from h parsed.enum m hm
  intro pairs
  induction pairs with
  | nil => intro m hm; exact hm
  | cons p rest ih =>
    intro m hm
    refine ih _ ?_
    cases hl : lookupLabel reg p.2 with
    | none => simpa [hl] using hm
    | some name => simpa [hl] using nodup_keys_addPos hm name (p.1 + 1)

theorem buildMap_keys_nodup (reg : List (Str × String)) :
    ∀ (stage2_results : List Stage2Item) (init : List (String × List Nat)),
      (init.map Prod.fst).Nodup →
      ((stage2_results.foldl
        (fun m item => recordJudge reg m (parse_ranking_from_text item.ranking))
        init).map Prod.fst).Nodup := by
  intro stage2_results
  induction stage2_results with
  | nil => intro init hinit; exact hinit
  | cons item rest ih =>
    intro init hinit
    exact ih _ (recordJudge_keys_nodup reg _ hinit)

theorem lookupPos_ne_nil_iff {m : List (String × List Nat)}
    (hm : ∀ e ∈ m, e.2 ≠ []) (key : String) :
    lookupPos m key ≠ [] ↔ key ∈ m.map Prod.fst := by
  induction m with
  | nil => simp [lookupPos]
  | cons e rest ih =>
    obtain ⟨k1, ps⟩ := e
    by_cases h : k1 = key
    · subst h
      have hps : ps ≠ [] := hm (k1, ps) (by simp)
      simp [lookupPos, hps]
    · simp [lookupPos, h, Ne.symm h, ih (fun x hx => hm x (by simp [hx]))]

theorem lookupPos_of_mem_nodup {m : List (String × List Nat)}
    (hnd : (m.map Prod.fst).Nodup) {k : String} {ps : List Nat} (hmem : (k, ps) ∈ m) :
    lookupPos m k = ps := by
  induction m with
  | nil => cases hmem
  | cons e rest ih =>
    obtain ⟨k1, ps1⟩ := e
    rw [List.map_cons, List.nodup_cons] at hnd
    rcases List.mem_cons.mp hmem with heq | hmem2
    · injection heq with h1 h2
      subst h1
      subst h2
      simp [lookupPos]
    · have hk : k1 ≠ k := by
        intro heq2
        subst heq2
        exact hnd.1 (List.mem_map.mpr ⟨(k1, ps), hmem2, rfl⟩)
      simp [lookupPos, hk, ih hnd.2 hmem2]

/-! ## Aggregation lemmas: entries and the stable sort -/

theorem filterMap_eq_map_of_all_some {α β : Type} (f : α → Option β) (g : α → β)
    (l : List α) (h : ∀ x ∈ l, f x = some (g x)) : l.filterMap f = l.map g := by
  induction l with
  | nil => rfl
  | cons a t ih =>
    rw [List.filterMap_cons_some (h a (by simp)), List.map_cons,
      ih (fun x hx => h x (by simp [hx]))]

theorem filterMap_mkEntry_eq_map {m : List (String × List Nat)}
    (hm : ∀ e ∈ m, e.2 ≠ []) :
    m.filterMap (fun e =>
      if e.2.isEmpty then none
      else some (⟨e.1, round2 (Rat.divInt (e.2.sum : ℤ) (e.2.length : ℤ)),
        e.2.length⟩ : AggregateEntry)) =
    m.map (fun e =>
      ⟨e.1, round2 (Rat.divInt (e.2.sum : ℤ) (e.2.length : ℤ)), e.2.length⟩) := by
  apply filterMap_eq_map_of_all_some
  intro x hx
  have hxe : x.2.isEmpty = false := by
    simpa [List.isEmpty_iff] using hm x hx
  simp [hxe]

theorem mem_insertByAvg {x y : AggregateEntry} {l : List AggregateEntry} :
    y ∈ insertByAvg x l ↔ y = x ∨ y ∈ l := by
  induction l with
  | nil => simp [insertByAvg]
  | cons z l ih =>
    by_cases h : x.average_rank < z.average_rank
    · simp [insertByAvg, h]
    · simp [insertByAvg, h, ih]
      tauto

theorem insertByAvg_perm (x : AggregateEntry) (l : List AggregateEntry) :
    insertByAvg x l ~ x :: l := by
  induction l with
  | nil => exact List.Perm.refl _
  | cons z l ih =>
    by_cases h : x.average_rank < z.average_rank
    · rw [show insertByAvg x (z :: l) = x :: z :: l from by simp [insertByAvg, h]]
    · calc insertByAvg x (z :: l) = z :: insertByAvg x l := by simp [insertByAvg, h]
        _ ~ z :: x :: l := List.Perm.cons z ih
        _ ~ x :: z :: l := List.Perm.swap x z l

theorem sortByAvg_perm (l : List AggregateEntry) : sortByAvg l ~ l := by
  suffices h : ∀ (l acc : List AggregateEntry),
      l.foldl (fun acc x => insertByAvg x acc) acc ~ acc ++ l by
    simpa using h l []
  intro l
  induction l with
  | nil => intro acc; simp
  | cons x l ih =>
    intro acc
    calc (x :: l).foldl (fun acc x => insertByAvg x acc) acc
        = l.foldl (fun acc x => insertByAvg x acc) (insertByAvg x acc) := rfl
      _ ~ insertByAvg x acc ++ l := ih _
      _ ~ (x :: acc) ++ l := (insertByAvg_perm x acc).append_right l
      _ ~ acc ++ x :: l := by
          rw [List.cons_append]
          exact (List.perm_middle).symm

theorem sorted_insertByAvg {x : AggregateEntry} {l : List AggregateEntry}
    (hl : l.Pairwise (fun a b => a.average_rank ≤ b.average_rank)) :
    (insertByAvg x l).Pairwise (fun a b => a.average_rank ≤ b.average_rank) := by
  induction l with
  | nil => simp [insertByAvg]
  | cons z l ih =>
    obtain ⟨hz, hl2⟩ := List.pairwise_cons.mp hl
    by_cases h : x.average_rank < z.average_rank
    · rw [show insertByAvg x (z :: l) = x :: z :: l from by simp [insertByAvg, h]]
      refine List.pairwise_cons.mpr ⟨?_, hl⟩
      intro b hb
      rcases List.mem_cons.mp hb with rfl | hb2
      · exact le_of_lt h
      · exact le_trans (le_of_lt h) (hz b hb2)
    · rw [show insertByAvg x (z :: l) = z :: insertByAvg x l from by simp [insertByAvg, h]]
      refine List.pairwise_cons.mpr ⟨?_, ih hl2⟩
      intro b hb
      rcases mem_insertByAvg.mp hb with rfl | hb2
      · exact not_lt.mp h
      · exact hz b hb2

theorem sorted_sortByAvg (l : List AggregateEntry) :
    (sortByAvg l).Pairwise (fun a b => a.average_rank ≤ b.average_rank) := by
  suffices h : ∀ (l acc : List AggregateEntry),
      acc.Pairwise (fun a b => a.average_rank ≤ b.average_rank) →
      (l.foldl (fun acc x => insertByAvg x acc) acc).Pairwise
        (fun a b => a.average_rank ≤ b.average_rank) from h l [] (by simp)
  intro l
  induction l with
  | nil => intro acc hacc; exact hacc
  | cons x l ih =>
    intro acc hacc
    exact ih _ (sorted_insertByAvg hacc)

theorem divInt_natCast_eq_div (s l : Nat) :
    Rat.divInt (s : ℤ) (l : ℤ) = (s : ℚ) / (l : ℚ) := by
  rw [Rat.divInt_eq_div]
  push_cast
  rfl

/-! ## Claim theorems -/

/-- C2: for every marker-free prelude and every nonempty block of
well-formed numbered lines "<digits>. Response <letter>", the parser applied
to `prelude ++ "FINAL RANKING:" ++ lines` returns exactly the
`Response <letter>` tokens of the numbered lines, in textual order — any
label tokens inside the prelude are ignored. -/
theorem C2_marked_ranking_parsed (pre : Str) (items : List (Str × Char))
    (hne : items ≠ [])
    (hwf : ∀ p ∈ items, p.1 ≠ [] ∧ (∀ ch ∈ p.1, ch.isDigit = true) ∧
      isUpperAZ p.2 = true)
    (hpre : containsSub markerS pre = false) :
    parse_ranking_from_text (pre ++ (markerS ++ renderItems items)) =
      items.map (fun p => labelOf p.2) := by
  unfold parse_ranking_from_text
  rw [splitOnce_append pre (renderItems items) hpre]
  show (let sect :=
      match splitOnce markerS (renderItems items) with
      | some (before, _) => before
      | none => renderItems items
    let numbered := findNumbered sect
    if numbered.isEmpty then findLabels sect else numbered) =
    items.map (fun p => labelOf p.2)
  rw [splitOnce_eq_none_of_not_contains (not_contains_marker_render items hwf)]
  show (if (findNumbered (renderItems items)).isEmpty then
      findLabels (renderItems items)
    else findNumbered (renderItems items)) = items.map (fun p => labelOf p.2)
  rw [findNumbered_render items hwf,
    if_neg (by simp [List.isEmpty_iff, List.map_eq_nil_iff, hne])]

/-- Witness for C2: a critique mentioning Response B before the marker,
then the numbered lines 1. Response C / 2. Response A / 3. Response B. -/
theorem C2_witness :
    ([(['1'], 'C'), (['2'], 'A'), (['3'], 'B')] : List (Str × Char)) ≠ [] ∧
    containsSub markerS ("Response B looked solid early on. ").toList = false ∧
    parse_ranking_from_text
      (("Response B looked solid early on. ").toList ++
        (markerS ++ renderItems [(['1'], 'C'), (['2'], 'A'), (['3'], 'B')])) =
      [labelOf 'C', labelOf 'A', labelOf 'B'] :=
  ⟨by decide, by decide,
   C2_marked_ranking_parsed ("Response B looked solid early on. ").toList
     [(['1'], 'C'), (['2'], 'A'), (['3'], 'B')] (by decide) (by decide) (by decide)⟩

/-- C9: a text that contains neither the marker nor any `Response <letter>`
token parses to the empty sequence (and, the embedding being total, no
exception is possible). -/
theorem C9_no_signal_empty (t : Str)
    (hm : ∀ a b : Str, t ≠ a ++ markerS ++ b)
    (hl : ∀ (a : Str) (c : Char) (b : Str), isUpperAZ c = true →
      t ≠ a ++ labelOf c ++ b) :
    parse_ranking_from_text t = [] := by
  have hcontains : containsSub markerS t = false := by
    cases hcs : containsSub markerS t
    · rfl
    · obtain ⟨a, b, hab⟩ := (containsSub_iff _ _).mp hcs
      exact absurd hab (hm a b)
  have hnone : ∀ i, matchLabel (t.drop i) = none := by
    intro i
    cases hml : matchLabel (t.drop i) with
    | none => rfl
    | some pr =>
      obtain ⟨c, r⟩ := pr
      obtain ⟨hdec, hup⟩ := matchLabel_eq_some_iff.mp hml
      have ht : t = t.take i ++ labelOf c ++ r := by
        rw [List.append_assoc, ← hdec, List.take_append_drop]
      exact absurd ht (hl (t.take i) c r hup)
  unfold parse_ranking_from_text
  rw [splitOnce_eq_none_of_not_contains hcontains]
  exact scanAll_nil_of_no_match matchLabel t.length t hnone

/-- The aggregate list is, up to the final sort, the list of entries of the
accumulated model_positions map: its keys are exactly the models with at
least one recorded position, without duplicates, and each key's entry
carries the rounded mean and the count of its recorded positions. -/
theorem calculate_keys (stage2_results : List Stage2Item)
    (label_to_model : List (Str × String)) :
    ∃ keys : List String,
      keys.Nodup ∧
      (∀ k, k ∈ keys ↔ positionsOf stage2_results label_to_model k ≠ []) ∧
      calculate_aggregate_rankings stage2_results label_to_model ~
        keys.map (entryFor stage2_results label_to_model) := by
  set bm := stage2_results.foldl
    (fun m item => recordJudge label_to_model m (parse_ranking_from_text item.ranking)) []
    with hbm
  have hne : ∀ e ∈ bm, e.2 ≠ [] :=
    buildMap_entry_nonempty label_to_model stage2_results [] (by simp)
  have hnd : (bm.map Prod.fst).Nodup :=
    buildMap_keys_nodup label_to_model stage2_results [] (by simp)
  have hlk : ∀ key, lookupPos bm key = positionsOf stage2_results label_to_model key :=
    fun key => by
      simpa [lookupPos] using lookupPos_buildMap label_to_model key stage2_results []
  refine ⟨bm.map Prod.fst, hnd, ?_, ?_⟩
  · intro k
    rw [← lookupPos_ne_nil_iff hne k, hlk k]
  · have hcalc : calculate_aggregate_rankings stage2_results label_to_model =
        sortByAvg (bm.map (fun e =>
          ⟨e.1, round2 (Rat.divInt (e.2.sum : ℤ) (e.2.length : ℤ)), e.2.length⟩)) := by
      simp only [calculate_aggregate_rankings]
      rw [← hbm, filterMap_mkEntry_eq_map hne]
    have hmap : bm.map (fun e =>
        (⟨e.1, round2 (Rat.divInt (e.2.sum : ℤ) (e.2.length : ℤ)),
          e.2.length⟩ : AggregateEntry)) =
        (bm.map Prod.fst).map (entryFor stage2_results label_to_model) := by
      rw [List.map_map]
      apply List.map_congr_left
      intro a ha
      have hps : a.2 = positionsOf stage2_results label_to_model a.1 := by
        rw [← hlk a.1, lookupPos_of_mem_nodup hnd (by simpa using ha)]
      show (⟨a.1, round2 (Rat.divInt (a.2.sum : ℤ) (a.2.length : ℤ)),
        a.2.length⟩ : AggregateEntry) = entryFor stage2_results label_to_model a.1
      unfold entryFor
      rw [hps]
    rw [hcalc, hmap]
    exact sortByAvg_perm _

/-- The aggregate list is always sorted ascending by average rank. -/
theorem calculate_sorted (stage2_results : List Stage2Item)
    (label_to_model : List (Str × String)) :
    (calculate_aggregate_rankings stage2_results label_to_model).Pairwise
      (fun a b => a.average_rank ≤ b.average_rank) := by
  simp only [calculate_aggregate_rankings]
  exact sorted_sortByAvg _

/-- C3 counterexample: rankings_count counts recorded positions, not judges.
A single judge whose (marker-free) text mentions Response A twice yields an
entry with rankings_count 2 — the claim's "number of judges who ranked that
model" is 1. -/
theorem C3_counterexample :
    calculate_aggregate_rankings
      [⟨"judge-1", ("I rank Response A above Response A itself").toList, []⟩]
      [(labelOf 'A', "model-a")] =
      [⟨"model-a", Rat.divInt 3 2, 2⟩] ∧
    (1 : Nat) ≠ 2 := by decide

/-- C3 amended: calculate_aggregate_rankings returns one entry per model with
at least one recorded 1-based position (labels absent from the registry are
ignored by positionsOf, models never mentioned are omitted), each entry's
average_rank being the arithmetic mean of the model's recorded positions
rounded to 2 decimal places and its rankings_count the NUMBER OF RECORDED
POSITIONS of that model (which equals the number of judges only when no
judge mentions a model twice), the whole list sorted ascending by
average_rank. -/
theorem C3_amended_aggregate_spec (stage2_results : List Stage2Item)
    (label_to_model : List (Str × String)) :
    ((calculate_aggregate_rankings stage2_results label_to_model).map
      AggregateEntry.model).Nodup ∧
    (∀ e ∈ calculate_aggregate_rankings stage2_results label_to_model,
      positionsOf stage2_results label_to_model e.model ≠ [] ∧
      e.average_rank = round2
        (((positionsOf stage2_results label_to_model e.model).sum : ℚ) /
         ((positionsOf stage2_results label_to_model e.model).length : ℚ)) ∧
      e.rankings_count = (positionsOf stage2_results label_to_model e.model).length) ∧
    (∀ model, positionsOf stage2_results label_to_model model ≠ [] →
      ∃ e ∈ calculate_aggregate_rankings stage2_results label_to_model,
        e.model = model) ∧
    (calculate_aggregate_rankings stage2_results label_to_model).Pairwise
      (fun a b => a.average_rank ≤ b.average_rank) := by
  obtain ⟨keys, hnd, hmem, hperm⟩ := calculate_keys stage2_results label_to_model
  refine ⟨?_, ?_, ?_, calculate_sorted stage2_results label_to_model⟩
  · have hp : (calculate_aggregate_rankings stage2_results label_to_model).map
        AggregateEntry.model ~
        keys.map (fun k => (entryFor stage2_results label_to_model k).model) := by
      simpa [List.map_map] using hperm.map AggregateEntry.model
    refine hp.nodup_iff.mpr ?_
    have hid : (keys.map fun k =>
        (entryFor stage2_results label_to_model k).model) = keys := by
      simp [entryFor]
    rw [hid]
    exact hnd
  · intro e he
    obtain ⟨k, hk, hke⟩ := List.mem_map.mp (hperm.mem_iff.mp he)
    subst hke
    have hkpos : positionsOf stage2_results label_to_model k ≠ [] := (hmem k).mp hk
    refine ⟨hkpos, ?_, rfl⟩
    show (entryFor stage2_results label_to_model k).average_rank = _
    rw [show (entryFor stage2_results label_to_model k).average_rank =
        round2 (Rat.divInt ((positionsOf stage2_results label_to_model k).sum : ℤ)
          ((positionsOf stage2_results label_to_model k).length : ℤ)) from rfl,
      divInt_natCast_eq_div]
    rfl
  · intro model hpos
    exact ⟨entryFor stage2_results label_to_model model,
      hperm.mem_iff.mpr (List.mem_map.mpr ⟨model, (hmem model).mpr hpos, rfl⟩), rfl⟩

/-- Witness for C3's amended theorem: in the concrete scenario, model-b has
a recorded position, so it owns an aggregate entry. -/
theorem C3_witness :
    positionsOf [⟨"judge-1", scenarioJudge1, []⟩, ⟨"judge-2", scenarioJudge2, []⟩]
      scenarioRegistry "model-b" ≠ [] ∧
    ∃ e ∈ calculate_aggregate_rankings
      [⟨"judge-1", scenarioJudge1, []⟩, ⟨"judge-2", scenarioJudge2, []⟩]
      scenarioRegistry, e.model = "model-b" :=
  ⟨by decide,
   (C3_amended_aggregate_spec
     [⟨"judge-1", scenarioJudge1, []⟩, ⟨"judge-2", scenarioJudge2, []⟩]
     scenarioRegistry).2.2.1 "model-b" (by decide)⟩

/-- C8: permuting the judge list permutes the aggregate entry list — the
same set of AggregateEntry records, with the same rounded mean and the same
count for each model. -/
theorem C8_aggregate_perm_invariant (stage2a stage2b : List Stage2Item)
    (label_to_model : List (Str × String)) (h : stage2a ~ stage2b) :
    calculate_aggregate_rankings stage2a label_to_model ~
      calculate_aggregate_rankings stage2b label_to_model := by
  have hposPerm : ∀ key, positionsOf stage2a label_to_model key ~
      positionsOf stage2b label_to_model key := by
    intro key
    exact (h.map fun item =>
      judgePositions label_to_model key (parse_ranking_from_text item.ranking)).flatten
  have hentry : ∀ key, entryFor stage2a label_to_model key =
      entryFor stage2b label_to_model key := by
    intro key
    unfold entryFor
    rw [(hposPerm key).sum_eq, (hposPerm key).length_eq]
  obtain ⟨ka, hnda, hmema, hperma⟩ := calculate_keys stage2a label_to_model
  obtain ⟨kb, hndb, hmemb, hpermb⟩ := calculate_keys stage2b label_to_model
  have hkeys : ka ~ kb := by
    rw [List.perm_ext_iff_of_nodup hnda hndb]
    intro k
    rw [hmema k, hmemb k]
    have hlen := (hposPerm k).length_eq
    constructor
    · intro h1 h2
      apply h1
      apply List.length_eq_zero.mp
      rw [hlen, h2]
      rfl
    · intro h1 h2
      apply h1
      apply List.length_eq_zero.mp
      rw [← hlen, h2]
      rfl
  calc calculate_aggregate_rankings stage2a label_to_model
      ~ ka.map (entryFor stage2a label_to_model) := hperma
    _ ~ kb.map (entryFor stage2a label_to_model) := hkeys.map _
    _ = kb.map (entryFor stage2b label_to_model) :=
        List.map_congr_left (fun k _ => hentry k)
    _ ~ calculate_aggregate_rankings stage2b label_to_model := hpermb.symm

/-- Witness for C8: swapping the two judges of the concrete scenario. -/
theorem C8_witness :
    ([⟨"judge-1", scenarioJudge1, []⟩, ⟨"judge-2", scenarioJudge2, []⟩] :
      List Stage2Item) ~
      [⟨"judge-2", scenarioJudge2, []⟩, ⟨"judge-1", scenarioJudge1, []⟩] ∧
    calculate_aggregate_rankings
      [⟨"judge-1", scenarioJudge1, []⟩, ⟨"judge-2", scenarioJudge2, []⟩]
      scenarioRegistry ~
    calculate_aggregate_rankings
      [⟨"judge-2", scenarioJudge2, []⟩, ⟨"judge-1", scenarioJudge1, []⟩]
      scenarioRegistry :=
  ⟨List.Perm.swap _ _ _,
   C8_aggregate_perm_invariant _ _ scenarioRegistry (List.Perm.swap _ _ _)⟩

/-- Witness for C9: free text with no marker and no label token. -/
theorem C9_witness :
    containsSub markerS ("the judge rambled and gave no verdict at all").toList = false ∧
    containsLabelTok ("the judge rambled and gave no verdict at all").toList = false ∧
    parse_ranking_from_text ("the judge rambled and gave no verdict at all").toList = [] :=
  ⟨by decide, by decide,
   C9_no_signal_empty ("the judge rambled and gave no verdict at all").toList
     (not_decomp_of_not_contains (by decide))
     (no_label_decomp (by decide))⟩

/-- C1: if stage 1 produces an empty list of successful responses,
run_full_council returns the terminal error result — empty stage-1 and
stage-2 collections, the error-tagged synthesis message and empty metadata —
and the result does not depend on the judge or chairman invocations, i.e.
stages 2 and 3 are never invoked. -/
theorem C1_empty_stage1_short_circuit
    (stage1Responses judgeResponses : InvokerResults)
    (chairmanResponse : Option Str) (hadContext : Bool)
    (h : stage1_collect_responses stage1Responses = []) :
    run_full_council stage1Responses judgeResponses chairmanResponse hadContext =
      ⟨[], [], ⟨"error", "All models failed to respond. Please try again.".toList⟩, none⟩ := by
  simp [run_full_council, h]

/-- Witness for C1: a council whose single model fails. -/
theorem C1_witness :
    stage1_collect_responses [("llama-3.1-8b-instant", none)] = [] ∧
    run_full_council [("llama-3.1-8b-instant", none)] [("judge", some ['x'])]
        (some ['y']) true =
      ⟨[], [], ⟨"error", "All models failed to respond. Please try again.".toList⟩, none⟩ :=
  ⟨by decide, C1_empty_stage1_short_circuit _ _ _ _ (by decide)⟩

/-- C5 counterexample: in the spec's concrete scenario the aggregate ranking
places the model behind label C first, not the model behind label A — both
have mean 1.5, and the stable sort keeps the first-observed model (C, ranked
first by judge 1) in front. -/
theorem C5_counterexample :
    scenarioAggregate.map AggregateEntry.model = ["model-c", "model-a", "model-b"] ∧
    "model-c" ≠ "model-a" := by decide

/-- C5 amended: the aggregate ranking places the model behind label C first
(mean 1.5, two judges), the model behind label A second (mean 1.5, two
judges), and the model behind label B last (mean 3, one judge); the A/C tie
is broken by first-observation order, and C is observed first. -/
theorem C5_amended_aggregate :
    scenarioAggregate =
      [⟨"model-c", Rat.divInt 3 2, 2⟩, ⟨"model-a", Rat.divInt 3 2, 2⟩,
       ⟨"model-b", 3, 1⟩] := by decide

/-- C6 counterexample: with 27 stage-1 results the anonymizer does not fail;
it assigns the label character chr(65 + 26) = '[' to the 27th result, a
label outside A–Z, and builds the registry with it. -/
theorem C6_counterexample :
    ((stage2_collect_rankings (List.replicate 27 ⟨"m", []⟩) []).2).map Prod.fst =
      (List.range 27).map (fun i => labelOf (Char.ofNat (65 + i))) ∧
    labelOf '[' ∈ ((stage2_collect_rankings (List.replicate 27 ⟨"m", []⟩) []).2).map Prod.fst ∧
    isUpperAZ '[' = false := by decide

/-- C6 amended: the anonymizer never fails: for every stage-1 result list it
totally assigns the label chr(65 + i) to the i-th result, so a list with
more than 26 members silently receives labels beyond 'Z' instead of raising
a configuration error. -/
theorem C6_amended_labels_total (stage1_results : List Stage1Item)
    (judgeResponses : InvokerResults) :
    ((stage2_collect_rankings stage1_results judgeResponses).2).map Prod.fst =
      (List.range stage1_results.length).map (fun i => labelOf (Char.ofNat (65 + i))) := by
  simp only [stage2_collect_rankings, stage2Labels, List.map_map]
  have h :
      ((((List.range stage1_results.length).map (fun i => Char.ofNat (65 + i))).zip
          stage1_results).map Prod.fst)
      = (List.range stage1_results.length).map (fun i => Char.ofNat (65 + i)) :=
    List.map_fst_zip _ _ (by simp)
  calc
    (((List.range stage1_results.length).map (fun i => Char.ofNat (65 + i))).zip
        stage1_results).map
      (Prod.fst ∘ fun p => (labelOf p.1, p.2.model))
      = (((List.range stage1_results.length).map (fun i => Char.ofNat (65 + i))).zip
          stage1_results).map (labelOf ∘ Prod.fst) := rfl
    _ = (List.range stage1_results.length).map
          (labelOf ∘ fun i => Char.ofNat (65 + i)) := by
        rw [← List.map_map, h, List.map_map]
    _ = (List.range stage1_results.length).map (fun i => labelOf (Char.ofNat (65 + i))) :=
        rfl

/-- C7: when the single stage-3 invocation fails, stage3_synthesize_final
still returns a SynthesisResult, carrying the fixed error-sentinel text; and
a run whose stage 1 succeeded still completes normally — its stage-3 slot
holds the sentinel and its metadata is populated, not the error outcome. -/
theorem C7_synthesis_failure_recovered
    (stage1Responses judgeResponses : InvokerResults) (hadContext : Bool)
    (h : stage1_collect_responses stage1Responses ≠ []) :
    stage3_synthesize_final none =
      ⟨CHAIRMAN_MODEL, "Error: Unable to generate final synthesis.".toList⟩ ∧
    (run_full_council stage1Responses judgeResponses none hadContext).stage3 =
      ⟨CHAIRMAN_MODEL, "Error: Unable to generate final synthesis.".toList⟩ ∧
    (run_full_council stage1Responses judgeResponses none hadContext).metadata ≠ none := by
  refine ⟨rfl, ?_, ?_⟩ <;>
    simp [run_full_council, stage3_synthesize_final, List.isEmpty_iff, h]

/-- Witness for C7: one answering model, chairman fails. -/
theorem C7_witness :
    stage1_collect_responses [("m", some ['a'])] ≠ [] ∧
    (run_full_council [("m", some ['a'])] [] none false).stage3 =
      ⟨CHAIRMAN_MODEL, "Error: Unable to generate final synthesis.".toList⟩ :=
  ⟨by decide, (C7_synthesis_failure_recovered [("m", some ['a'])] [] false (by decide)).2.1⟩

/-- C10: on a successful title invocation, generate_conversation_title
strips whitespace then surrounding quotes, truncates to 47 characters plus
an ellipsis when longer than 50, substitutes "New Conversation" when the
stripped content is empty, and in all cases returns a non-empty string. -/
theorem C10_title_success (user_query content : Str) :
    generate_conversation_title user_query (some content) =
      (if 50 < (stripWhere isQuote (stripWhere isPySpace content)).length then
        (stripWhere isQuote (stripWhere isPySpace content)).take 47 ++ "...".toList
      else if (stripWhere isQuote (stripWhere isPySpace content)).isEmpty then
        "New Conversation".toList
      else stripWhere isQuote (stripWhere isPySpace content)) ∧
    generate_conversation_title user_query (some content) ≠ [] := by
  constructor
  · simp only [generate_conversation_title]
    split
    · simp
    · rfl
  · simp only [generate_conversation_title]
    split
    · simp
    · split
      · simp
      · rename_i h2
        simpa [List.isEmpty_iff] using h2

/-- C4 counterexample: when stage 1 yields zero successful responses, batch
run_full_council returns the terminal error outcome, but the streaming
event generator does not short-circuit: it still emits a stage-2 completion
carrying the judge's response (parsed against an empty registry) and a
stage-3 completion carrying the chairman's synthesis, instead of the batch
error outcome. -/
theorem C4_counterexample :
    run_full_council [("m1", none)] [("j1", some ['x'])] (some ['s']) false =
      ⟨[], [], ⟨"error", "All models failed to respond. Please try again.".toList⟩, none⟩ ∧
    event_generator [("m1", none)] [("j1", some ['x'])] (some ['s']) none =
      [StreamEvent.stage1Start, StreamEvent.stage1Complete [],
       StreamEvent.stage2Start, StreamEvent.stage2Complete [⟨"j1", ['x'], []⟩] [] [],
       StreamEvent.stage3Start, StreamEvent.stage3Complete ⟨CHAIRMAN_MODEL, ['s']⟩,
       StreamEvent.complete] := by decide

/-- C4 amended: whenever stage 1 yields at least one successful response,
the streaming mode has the same underlying stage semantics as batch
run_full_council: given identical per-model invoker results, the batch
fields are exactly the shared stage computations and every streamed stage
payload equals the corresponding batch field.  (When stage 1 yields zero
successes the two modes differ: the batch mode short-circuits to the error
outcome while the generator still runs stages 2 and 3 over the empty
response set.) -/
theorem C4_amended_stream_batch_equiv
    (stage1Responses judgeResponses : InvokerResults)
    (chairmanResponse : Option Str) (hadContext : Bool) (title : Option Str)
    (h : stage1_collect_responses stage1Responses ≠ []) :
    run_full_council stage1Responses judgeResponses chairmanResponse hadContext =
      ⟨stage1_collect_responses stage1Responses,
       (stage2_collect_rankings (stage1_collect_responses stage1Responses)
         judgeResponses).1,
       stage3_synthesize_final chairmanResponse,
       some
         ⟨(stage2_collect_rankings (stage1_collect_responses stage1Responses)
             judgeResponses).2,
          calculate_aggregate_rankings
            (stage2_collect_rankings (stage1_collect_responses stage1Responses)
              judgeResponses).1
            (stage2_collect_rankings (stage1_collect_responses stage1Responses)
              judgeResponses).2,
          hadContext⟩⟩ ∧
    event_generator stage1Responses judgeResponses chairmanResponse title =
      [StreamEvent.stage1Start,
       StreamEvent.stage1Complete
         (run_full_council stage1Responses judgeResponses chairmanResponse
           hadContext).stage1,
       StreamEvent.stage2Start,
       StreamEvent.stage2Complete
         (run_full_council stage1Responses judgeResponses chairmanResponse
           hadContext).stage2
         (stage2_collect_rankings (stage1_collect_responses stage1Responses)
           judgeResponses).2
         (calculate_aggregate_rankings
           (stage2_collect_rankings (stage1_collect_responses stage1Responses)
             judgeResponses).1
           (stage2_collect_rankings (stage1_collect_responses stage1Responses)
             judgeResponses).2),
       StreamEvent.stage3Start,
       StreamEvent.stage3Complete
         (run_full_council stage1Responses judgeResponses chairmanResponse
           hadContext).stage3]
      ++ (match title with
          | some t => [StreamEvent.titleComplete t]
          | none => [])
      ++ [StreamEvent.complete] := by
  constructor
  · simp [run_full_council, List.isEmpty_iff, h]
  · simp [event_generator, run_full_council, List.isEmpty_iff, h]

/-- Witness for C4's amended theorem: one answering model, one judge, a
successful chairman, no title task. -/
theorem C4_amended_witness :
    stage1_collect_responses [("m", some ['a'])] ≠ [] ∧
    event_generator [("m", some ['a'])] [("j", some ['x'])] (some ['s']) none =
      [StreamEvent.stage1Start,
       StreamEvent.stage1Complete
         (run_full_council [("m", some ['a'])] [("j", some ['x'])] (some ['s'])
           false).stage1,
       StreamEvent.stage2Start,
       StreamEvent.stage2Complete
         (run_full_council [("m", some ['a'])] [("j", some ['x'])] (some ['s'])
           false).stage2
         (stage2_collect_rankings (stage1_collect_responses [("m", some ['a'])])
           [("j", some ['x'])]).2
         (calculate_aggregate_rankings
           (stage2_collect_rankings (stage1_collect_responses [("m", some ['a'])])
             [("j", some ['x'])]).1
           (stage2_collect_rankings (stage1_collect_responses [("m", some ['a'])])
             [("j", some ['x'])]).2),
       StreamEvent.stage3Start,
       StreamEvent.stage3Complete
         (run_full_council [("m", some ['a'])] [("j", some ['x'])] (some ['s'])
           false).stage3]
      ++ [] ++ [StreamEvent.complete] :=
  ⟨by decide,
   (C4_amended_stream_batch_equiv [("m", some ['a'])] [("j", some ['x'])]
     (some ['s']) false none (by decide)).2⟩

end Council
